import Mathlib

/-!
Verification of the splunk-resource-monitor host telemetry agent.

The development embeds the agent's Rust source (`src/main.rs`) as pure
Lean functions:

* `check_running_process` — the Process Singleton Guard, modelled as a pure
  function from the (optional) ownership-record file content, the host's
  process table, the current process identifier and the current executable
  path to a `GuardResult` (the outcome and the resulting file content).
* `mainArgs` — the argument handling at the top of `main`.
* `mainDispatch` — the `log_type` dispatch at the bottom of `main`.
* `LogEntry` with `update` / `finalize` / `reset` — the interval aggregator.
  Its module (`modules/log_entry.rs`) is not part of the sources at hand,
  so it is modelled from the specification (doc comments state this).
* `get_configmap` interval / log-type validation — likewise modelled from
  the specification, since `modules/config.rs` is not among the sources.
-/

/-- One entry of the host's process table, as the guard observes it through
the `sysinfo` crate: process identifier, optional parent identifier,
optional executable image path, command line (index 0 is the program name),
and start time. -/
structure Proc where
  pid : Nat
  parent : Option Nat
  exe : Option String
  cmd : List String
  startTime : Nat
  deriving DecidableEq, Repr

/-- Outcome of the guard: `exit c` models `process::exit(c)`, while
`continueOwner` means the function returns and the agent keeps running. -/
inductive GuardOutcome where
  | exit (code : Nat)
  | continueOwner
  deriving DecidableEq, Repr

/-- Result of one guard invocation: the outcome together with the content of
the ownership-record file afterwards (`none` = the file does not exist). -/
structure GuardResult where
  outcome : GuardOutcome
  pidFile : Option String
  deriving DecidableEq, Repr

/-- Rust's `str::trim()`: remove leading and trailing whitespace. -/
def rustTrim (s : String) : String :=
  ⟨((s.data.dropWhile Char.isWhitespace).reverse.dropWhile
      Char.isWhitespace).reverse⟩

/-- Rust's `str::parse::<u32>()`: an optional leading `+`, then one or more
ASCII digits, and the value must fit in 32 bits. -/
def parseU32 (s : String) : Option Nat :=
  let cs := match s.data with
    | '+' :: rest => rest
    | cs => cs
  if cs.isEmpty then none
  else if cs.all Char.isDigit then
    let n := cs.foldl (fun a c => a * 10 + (c.toNat - 48)) 0
    if n < 2 ^ 32 then some n else none
  else none

/-- The candidate filter from the no-record branch of
`check_running_process` (main.rs lines 31–34): the process is kept when its
pid differs from the current pid, its parent (when known) is not the current
pid, its executable equals the current executable, and the second element of
its command line (`cmd().get(1)`, the first argument) is `"agent"`. -/
def isCandidate (currentPid : Nat) (executable : String) (p : Proc) : Bool :=
  (p.pid != currentPid)
    && (match p.parent with
        | none => true
        | some par => par != currentPid)
    && (match p.exe with
        | none => false
        | some e => e == executable)
    && (match p.cmd.get? 1 with
        | none => false
        | some a => a == "agent")

/-- The `matching_processes` vector: `(pid, start_time)` pairs of all
candidates. -/
def candidates (procs : List Proc) (currentPid : Nat) (executable : String) :
    List (Nat × Nat) :=
  (procs.filter (isCandidate currentPid executable)).map
    (fun p => (p.pid, p.startTime))

/-- Strict comparison on the key `(start_time, pid)` used by
`min_by_key(|&(pid, start_time)| (start_time, pid))`. -/
def keyLt (a b : Nat × Nat) : Bool :=
  a.2 < b.2 || (a.2 == b.2 && a.1 < b.1)

/-- One step of the minimum fold: keep the accumulated element unless the
next one has a strictly smaller key. -/
def minStep (a y : Nat × Nat) : Nat × Nat :=
  if keyLt y a then y else a

/-- `Iterator::min_by_key` over `(pid, start_time)` pairs with the key
`(start_time, pid)`: the first element with the minimal key. -/
def minByKey : List (Nat × Nat) → Option (Nat × Nat)
  | [] => none
  | x :: xs => some (xs.foldl minStep x)

/-- The ordering the spec describes: earlier start time, ties broken by the
numerically smaller pid. `a` and `b` are `(pid, start_time)` pairs. -/
def keyLE (a b : Nat × Nat) : Prop :=
  a.2 < b.2 ∨ (a.2 = b.2 ∧ a.1 ≤ b.1)

/-- The Process Singleton Guard, `check_running_process` (main.rs lines
12–77), as a pure function. `pidFile` is the content of
`<bin_folder>/.agent.pid` when that file exists. The file content written
by `writeln!(file, "{}", p)` is the decimal string of `p` followed by a
newline. -/
def check_running_process (pidFile : Option String) (procs : List Proc)
    (currentPid : Nat) (executable : String) : GuardResult :=
  match pidFile with
  | none =>
    match minByKey (candidates procs currentPid executable) with
    | some (oldestPid, _) =>
      ⟨GuardOutcome.exit 0, some (toString oldestPid ++ "\n")⟩
    | none =>
      ⟨GuardOutcome.continueOwner, some (toString currentPid ++ "\n")⟩
  | some content =>
    match parseU32 (rustTrim content) with
    | none => ⟨GuardOutcome.exit 1, none⟩
    | some oldPid =>
      if procs.any (fun p => p.pid == oldPid) then
        ⟨GuardOutcome.exit 0, some content⟩
      else
        ⟨GuardOutcome.continueOwner, some (toString currentPid ++ "\n")⟩

/-- `p` is a direct parent of the current process: some table entry is the
current process and names `p.pid` as its parent. Used to state the spec's
candidate condition (b) for comparison with the code's filter. -/
def isDirectParent (table : List Proc) (currentPid : Nat) (p : Proc) : Prop :=
  ∃ c ∈ table, c.pid = currentPid ∧ c.parent = some p.pid

/-- The candidate predicate exactly as the spec sentence states it: not the
current process, not a direct parent of the current process, same
executable, `"agent"` as first argument. Stated for comparison with
`isCandidate`, the filter the code actually applies. -/
def specCandidate (table : List Proc) (currentPid : Nat)
    (executable : String) (p : Proc) : Prop :=
  p.pid ≠ currentPid ∧ ¬ isDirectParent table currentPid p ∧
    p.exe = some executable ∧ p.cmd.get? 1 = some "agent"

/-- One raw per-second sample as the aggregation loop sees it: the CPU
reading and the cumulative receive/transmit byte counters summed over all
interfaces. CPU readings are modelled as exact rationals. -/
structure RawSample where
  cpu : ℚ
  rx : Nat
  tx : Nat
  deriving DecidableEq, Repr

/-- Modelled from the spec: the open `SummaryRecord` of
`modules/log_entry.rs` (`LogEntry`), whose source is not among the files at
hand. Per the spec it carries running min/max/sum/count for the CPU reading
and the first and latest cumulative network counters of the interval. The
zero values are the empty (reset) state. -/
structure LogEntry where
  cpu_sum : ℚ := 0
  cpu_min : ℚ := 0
  cpu_max : ℚ := 0
  sample_count : Nat := 0
  net_rx_first : Nat := 0
  net_rx_last : Nat := 0
  net_tx_first : Nat := 0
  net_tx_last : Nat := 0
  deriving DecidableEq, Repr

/-- Modelled from the spec: the empty record created at interval start and
restored by `reset`. -/
def LogEntry.new : LogEntry := {}

/-- Modelled from the spec: `reset` returns the record to the empty state
for the next interval. -/
def LogEntry.reset (_ : LogEntry) : LogEntry := {}

/-- Modelled from the spec: `update` folds one raw snapshot into the open
record, recomputing running min/max/sum/count for the CPU reading and
recording the latest cumulative network counters (the first sample also
fixes the interval's first counters). -/
def LogEntry.update (e : LogEntry) (s : RawSample) : LogEntry where
  cpu_sum := e.cpu_sum + s.cpu
  cpu_min := if e.sample_count = 0 then s.cpu else min e.cpu_min s.cpu
  cpu_max := if e.sample_count = 0 then s.cpu else max e.cpu_max s.cpu
  sample_count := e.sample_count + 1
  net_rx_first := if e.sample_count = 0 then s.rx else e.net_rx_first
  net_rx_last := s.rx
  net_tx_first := if e.sample_count = 0 then s.tx else e.net_tx_first
  net_tx_last := s.tx

/-- The closed-out summary produced by `finalize`: the CPU aggregates, the
clamped network deltas and the number of folded samples. -/
structure FinalRecord where
  cpu_avg : ℚ
  cpu_min : ℚ
  cpu_max : ℚ
  net_rx_delta : ℤ
  net_tx_delta : ℤ
  sample_count : Nat
  deriving DecidableEq, Repr

/-- Modelled from the spec: `finalize` computes `cpu_avg` as sum divided by
`sample_count`, guarding against division by zero when `sample_count = 0`
by treating the interval as a no-op and emitting no record (`none`), and
computes the network deltas as last counter minus first counter, clamped to
zero when negative. -/
def LogEntry.finalize (e : LogEntry) : Option FinalRecord :=
  if e.sample_count = 0 then none
  else
    some
      { cpu_avg := e.cpu_sum / (e.sample_count : ℚ)
        cpu_min := e.cpu_min
        cpu_max := e.cpu_max
        net_rx_delta := max 0 ((e.net_rx_last : ℤ) - (e.net_rx_first : ℤ))
        net_tx_delta := max 0 ((e.net_tx_last : ℤ) - (e.net_tx_first : ℤ))
        sample_count := e.sample_count }

/-- The body of one interval of the sampling loop (main.rs lines 138–145):
fold each of the interval's raw samples into a fresh record via `update`. -/
def runInterval (samples : List RawSample) : LogEntry :=
  samples.foldl LogEntry.update LogEntry.new

/-- Modelled from the spec: the interval validation of
`modules/config.rs` (`get_configmap`), whose source is not among the files
at hand. The spec requires `interval` to be an integer ≥ 1 and makes an
interval of 0 a configuration error rejected before the loop starts. -/
def validateInterval (n : Nat) : Option Nat :=
  if n = 0 then none else some n

/-- Modelled from the spec: the log-type validation of `modules/config.rs`.
The spec recognizes `log_type` values `"file"` and `"udp"` and makes any
other value a configuration error, fatal at startup. -/
def validateLogType (lt : String) : Option String :=
  if lt = "file" then some lt
  else if lt = "udp" then some lt
  else none

/-- Modelled from the spec: `get_configmap` returns the validated
configuration, or fails (fatal non-zero exit at startup) when the interval
or the log type is invalid. -/
def get_configmap (logType : String) (interval : Nat) :
    Option (String × Nat) :=
  match validateLogType logType, validateInterval interval with
  | some lt, some i => some (lt, i)
  | _, _ => none

/-- How one agent run ends at top level: an exit with a status code, or
entering one of the two infinite sampling loops. -/
inductive RunOutcome where
  | exitCode (code : Nat)
  | loops (sink : String)
  deriving DecidableEq, Repr

/-- The `log_type` dispatch of `main` (main.rs lines 124–194): `"file"` and
`"udp"` each enter their sampling loop; any other value falls through both
branches and `main` returns normally (exit status 0). -/
def mainDispatch (logType : String) : RunOutcome :=
  if logType = "file" then RunOutcome.loops "file"
  else if logType = "udp" then RunOutcome.loops "udp"
  else RunOutcome.exitCode 0

/-- Agent startup for the sampling path: load and validate the
configuration (modelled from the spec), then run `main`'s dispatch on the
validated log type. -/
def agentStartup (logType : String) (interval : Nat) : RunOutcome :=
  match get_configmap logType interval with
  | none => RunOutcome.exitCode 1
  | some (lt, _) => mainDispatch lt

/-- Outcome of `main`'s argument handling. -/
inductive ArgOutcome where
  | earlyExit (code : Nat)
  | panicked
  | proceed (mode : String)
  deriving DecidableEq, Repr

/-- The argument handling at the top of `main` (main.rs lines 82–88): exit
1 when the collected argument vector is empty, otherwise index `args[1]`,
which panics when the vector has fewer than two elements. -/
def mainArgs (args : List String) : ArgOutcome :=
  if args.isEmpty then ArgOutcome.earlyExit 1
  else
    match args.get? 1 with
    | none => ArgOutcome.panicked
    | some mode => ArgOutcome.proceed mode

/-- C6: an existing ownership record whose trimmed content does not parse as
a `u32` makes the guard delete the file (resulting file state `none`) and
exit with failure status 1, without rewriting the record. -/
theorem guard_corrupt_record_deletes_and_fails (content : String)
    (procs : List Proc) (currentPid : Nat) (executable : String)
    (h : parseU32 (rustTrim content) = none) :
    check_running_process (some content) procs currentPid executable =
      ⟨GuardOutcome.exit 1, none⟩ := by
  simp [check_running_process, h]

/-- Witness for C6: the non-numeric content `"garbage"` with an arbitrary
process table. -/
theorem guard_corrupt_record_deletes_and_fails_witness :
    check_running_process (some "garbage") [] 5 "/opt/agent/bin/agent" =
      ⟨GuardOutcome.exit 1, none⟩ :=
  guard_corrupt_record_deletes_and_fails "garbage" [] 5 "/opt/agent/bin/agent"
    (by decide)

/-- C7: an existing ownership record that parses to `oldPid`, when no
process with identifier `oldPid` is in the process table, is overwritten
with the current process identifier and the guard returns (the agent
continues running as owner). -/
theorem guard_stale_record_overwrites_and_continues (content : String)
    (procs : List Proc) (currentPid : Nat) (executable : String)
    (oldPid : Nat) (hparse : parseU32 (rustTrim content) = some oldPid)
    (hnotrun : ∀ p ∈ procs, p.pid ≠ oldPid) :
    check_running_process (some content) procs currentPid executable =
      ⟨GuardOutcome.continueOwner, some (toString currentPid ++ "\n")⟩ := by
  have hany : procs.any (fun p => p.pid == oldPid) = false := by
    simp only [List.any_eq_false, beq_iff_eq]
    exact hnotrun
  simp [check_running_process, hparse, hany]

/-- Witness for C7: record content `"42"`, a table holding only pid 7, and
current pid 5: the guard rewrites the file to `"5\n"` and continues. -/
theorem guard_stale_record_overwrites_and_continues_witness :
    check_running_process (some "42")
        [⟨7, none, some "/opt/agent/bin/agent", [], 0⟩] 5
        "/opt/agent/bin/agent" =
      ⟨GuardOutcome.continueOwner, some "5\n"⟩ :=
  guard_stale_record_overwrites_and_continues "42"
    [⟨7, none, some "/opt/agent/bin/agent", [], 0⟩] 5 "/opt/agent/bin/agent"
    42 (by decide) (by decide)

/-- C8: an existing ownership record that parses to `oldPid`, when some
process with identifier `oldPid` is running, makes the current process exit
with status 0 and leaves the file content exactly as it was. -/
theorem guard_live_record_exits_unchanged (content : String)
    (procs : List Proc) (currentPid : Nat) (executable : String)
    (oldPid : Nat) (hparse : parseU32 (rustTrim content) = some oldPid)
    (hrun : ∃ p ∈ procs, p.pid = oldPid) :
    check_running_process (some content) procs currentPid executable =
      ⟨GuardOutcome.exit 0, some content⟩ := by
  have hany : procs.any (fun p => p.pid == oldPid) = true := by
    simp only [List.any_eq_true, beq_iff_eq]
    exact hrun
  simp [check_running_process, hparse, hany]

/-- Witness for C8: record content `"7\n"`, a table holding pid 7: the
guard exits 0 and the file still reads `"7\n"`. -/
theorem guard_live_record_exits_unchanged_witness :
    check_running_process (some "7\n")
        [⟨7, none, some "/opt/agent/bin/agent", [], 0⟩] 5
        "/opt/agent/bin/agent" =
      ⟨GuardOutcome.exit 0, some "7\n"⟩ :=
  guard_live_record_exits_unchanged "7\n"
    [⟨7, none, some "/opt/agent/bin/agent", [], 0⟩] 5 "/opt/agent/bin/agent"
    7 (by decide) ⟨⟨7, none, some "/opt/agent/bin/agent", [], 0⟩, by decide⟩

theorem keyLE_refl (a : Nat × Nat) : keyLE a a := by
  unfold keyLE
  omega

theorem keyLE_trans {a b c : Nat × Nat} (h1 : keyLE a b) (h2 : keyLE b c) :
    keyLE a c := by
  unfold keyLE at *
  omega

theorem keyLE_of_keyLt_true {a b : Nat × Nat} (h : keyLt a b = true) :
    keyLE a b := by
  simp [keyLt] at h
  unfold keyLE
  omega

theorem keyLE_of_keyLt_false {a b : Nat × Nat} (h : keyLt a b = false) :
    keyLE b a := by
  simp [keyLt] at h
  unfold keyLE
  omega

theorem minStep_le (a y : Nat × Nat) :
    keyLE (minStep a y) a ∧ keyLE (minStep a y) y := by
  unfold minStep
  cases hk : keyLt y a with
  | true => simp [hk]; exact ⟨keyLE_of_keyLt_true hk, keyLE_refl y⟩
  | false => simp [hk]; exact ⟨keyLE_refl a, keyLE_of_keyLt_false hk⟩

theorem foldl_minStep_mem (xs : List (Nat × Nat)) (a : Nat × Nat) :
    xs.foldl minStep a = a ∨ xs.foldl minStep a ∈ xs := by
  induction xs generalizing a with
  | nil => left; rfl
  | cons y ys ih =>
    simp only [List.foldl_cons]
    rcases ih (minStep a y) with h | h
    · rw [h]
      unfold minStep
      split
      · right
        exact List.mem_cons_self y ys
      · left
        rfl
    · right
      exact List.mem_cons_of_mem y h

theorem foldl_minStep_le (xs : List (Nat × Nat)) (a : Nat × Nat) :
    keyLE (xs.foldl minStep a) a ∧ ∀ x ∈ xs, keyLE (xs.foldl minStep a) x := by
  induction xs generalizing a with
  | nil => exact ⟨keyLE_refl a, by simp⟩
  | cons y ys ih =>
    simp only [List.foldl_cons]
    obtain ⟨h1, h2⟩ := ih (minStep a y)
    obtain ⟨ha, hy⟩ := minStep_le a y
    refine ⟨keyLE_trans h1 ha, ?_⟩
    intro x hx
    rcases List.mem_cons.mp hx with rfl | hx
    · exact keyLE_trans h1 hy
    · exact h2 x hx

theorem minByKey_spec {l : List (Nat × Nat)} {m : Nat × Nat}
    (h : minByKey l = some m) : m ∈ l ∧ ∀ x ∈ l, keyLE m x := by
  cases l with
  | nil => simp [minByKey] at h
  | cons x xs =>
    simp only [minByKey, Option.some.injEq] at h
    subst h
    obtain ⟨h1, h2⟩ := foldl_minStep_le xs x
    constructor
    · rcases foldl_minStep_mem xs x with h | h
      · rw [h]
        exact List.mem_cons_self x xs
      · exact List.mem_cons_of_mem x h
    · intro z hz
      rcases List.mem_cons.mp hz with rfl | hz
      · exact h1
      · exact h2 z hz

/-- C1: with no ownership record, the guard picks among the candidate
processes the one with the earliest start time, breaking ties by the
numerically smallest pid: if a candidate exists the guard writes that
candidate's pid to the record and exits with status 0; if none exists it
writes the current pid and continues running as owner. (Candidate pairs are
`(pid, start_time)`.) -/
theorem guard_no_record_picks_oldest (procs : List Proc) (currentPid : Nat)
    (executable : String) :
    (candidates procs currentPid executable = [] →
      check_running_process none procs currentPid executable =
        ⟨GuardOutcome.continueOwner, some (toString currentPid ++ "\n")⟩) ∧
    (candidates procs currentPid executable ≠ [] →
      ∃ c ∈ candidates procs currentPid executable,
        (∀ d ∈ candidates procs currentPid executable, keyLE c d) ∧
        check_running_process none procs currentPid executable =
          ⟨GuardOutcome.exit 0, some (toString c.1 ++ "\n")⟩) := by
  constructor
  · intro h
    simp [check_running_process, h, minByKey]
  · intro h
    cases hL : candidates procs currentPid executable with
    | nil => exact absurd hL h
    | cons x xs =>
      rcases hmk : xs.foldl minStep x with ⟨p, st⟩
      have hmin : minByKey (candidates procs currentPid executable) =
          some (p, st) := by
        rw [hL]
        simp [minByKey, hmk]
      obtain ⟨hmem, hle⟩ := minByKey_spec hmin
      rw [hL] at hmem hle
      refine ⟨(p, st), hmem, hle, ?_⟩
      simp [check_running_process, hmin]

/-- Witness for C1: a table with two candidates, pid 9 started at time 100
and pid 3 started at time 50, plus the current process 5: the guard selects
pid 3 (earliest start), writes `"3\n"` and exits 0. -/
theorem guard_no_record_picks_oldest_witness :
    ∃ c ∈ candidates
        [⟨9, some 1, some "/opt/agent/bin/agent",
            ["/opt/agent/bin/agent", "agent"], 100⟩,
         ⟨3, some 1, some "/opt/agent/bin/agent",
            ["/opt/agent/bin/agent", "agent"], 50⟩] 5 "/opt/agent/bin/agent",
      (∀ d ∈ candidates
        [⟨9, some 1, some "/opt/agent/bin/agent",
            ["/opt/agent/bin/agent", "agent"], 100⟩,
         ⟨3, some 1, some "/opt/agent/bin/agent",
            ["/opt/agent/bin/agent", "agent"], 50⟩] 5 "/opt/agent/bin/agent",
        keyLE c d) ∧
      check_running_process none
        [⟨9, some 1, some "/opt/agent/bin/agent",
            ["/opt/agent/bin/agent", "agent"], 100⟩,
         ⟨3, some 1, some "/opt/agent/bin/agent",
            ["/opt/agent/bin/agent", "agent"], 50⟩] 5 "/opt/agent/bin/agent" =
        ⟨GuardOutcome.exit 0, some (toString c.1 ++ "\n")⟩ :=
  (guard_no_record_picks_oldest
    [⟨9, some 1, some "/opt/agent/bin/agent",
        ["/opt/agent/bin/agent", "agent"], 100⟩,
     ⟨3, some 1, some "/opt/agent/bin/agent",
        ["/opt/agent/bin/agent", "agent"], 50⟩] 5 "/opt/agent/bin/agent").2
    (by decide)

/-- C2 counterexample: in a table where process 1 (no known parent, same
executable, `"agent"` first argument) is the direct parent of the current
process 5, the code's filter accepts process 1, while the claim's condition
(b) — "is not a direct parent of the current process" — rejects it. The
code actually excludes processes whose own parent is the current process,
i.e. direct children of the current process, not its parents. -/
theorem candidate_filter_counterexample :
    isCandidate 5 "/opt/agent/bin/agent"
        ⟨1, none, some "/opt/agent/bin/agent",
          ["/opt/agent/bin/agent", "agent"], 3⟩ = true ∧
    ¬ specCandidate
        [⟨5, some 1, some "/opt/agent/bin/agent",
            ["/opt/agent/bin/agent", "agent"], 10⟩,
         ⟨1, none, some "/opt/agent/bin/agent",
            ["/opt/agent/bin/agent", "agent"], 3⟩]
        5 "/opt/agent/bin/agent"
        ⟨1, none, some "/opt/agent/bin/agent",
          ["/opt/agent/bin/agent", "agent"], 3⟩ := by
  constructor
  · decide
  · unfold specCandidate isDirectParent
    decide

/-- C2 amended: in the no-record branch a running process is selected as a
candidate if and only if it (a) is not the current process, (b) does not
have the current process as its direct parent (processes with no known
parent pass this check), (c) was launched from the same executable image
path, and (d) has `"agent"` as the first argument of its command line. -/
theorem candidate_filter_characterization (currentPid : Nat)
    (executable : String) (p : Proc) :
    isCandidate currentPid executable p = true ↔
      (p.pid ≠ currentPid ∧ (∀ q, p.parent = some q → q ≠ currentPid) ∧
        p.exe = some executable ∧ p.cmd.get? 1 = some "agent") := by
  obtain ⟨pid, parent, exe, cmd, st⟩ := p
  simp only [isCandidate, Bool.and_eq_true, bne_iff_ne]
  cases parent <;> cases exe <;> cases hc : cmd.get? 1 <;>
    simp_all [beq_iff_eq] <;> tauto

/-- C9: for every configuration whose log type is neither `"file"` nor
`"udp"`, startup is fatal: the run ends with exit status 1 (non-zero) and
neither sampling loop is entered. -/
theorem unknown_log_type_is_fatal (logType : String) (interval : Nat)
    (h1 : logType ≠ "file") (h2 : logType ≠ "udp") :
    agentStartup logType interval = RunOutcome.exitCode 1 ∧
    ∀ sink, agentStartup logType interval ≠ RunOutcome.loops sink := by
  have hval : validateLogType logType = none := by
    simp [validateLogType, h1, h2]
  have h : agentStartup logType interval = RunOutcome.exitCode 1 := by
    simp [agentStartup, get_configmap, hval]
  exact ⟨h, fun sink hs => by rw [h] at hs; cases hs⟩

/-- Witness for C9: the unknown log type `"syslog"` with interval 60 exits
with status 1. -/
theorem unknown_log_type_is_fatal_witness :
    agentStartup "syslog" 60 = RunOutcome.exitCode 1 :=
  (unknown_log_type_is_fatal "syslog" 60 (by decide) (by decide)).1

/-- C10: for an invocation whose argument list holds only the program name,
the `args.is_empty()` guard does not fire (the vector contains the program
name), and the subsequent `args[1]` access is out of bounds, so `main`
panics instead of reaching any documented exit path. -/
theorem lone_program_name_panics (prog : String) :
    ([prog].isEmpty = false) ∧ mainArgs [prog] = ArgOutcome.panicked := by
  constructor
  · rfl
  · rfl

theorem foldl_update_count (l : List RawSample) (e : LogEntry) :
    (l.foldl LogEntry.update e).sample_count = e.sample_count + l.length := by
  induction l generalizing e with
  | nil => simp
  | cons s l ih =>
    rw [List.foldl_cons, ih]
    simp [LogEntry.update]
    omega

theorem foldl_update_sum (l : List RawSample) (e : LogEntry) :
    (l.foldl LogEntry.update e).cpu_sum =
      e.cpu_sum + (l.map RawSample.cpu).sum := by
  induction l generalizing e with
  | nil => simp
  | cons s l ih =>
    rw [List.foldl_cons, ih]
    simp [LogEntry.update]
    ring

theorem foldl_update_min (l : List RawSample) (e : LogEntry)
    (h : e.sample_count ≠ 0) :
    (l.foldl LogEntry.update e).cpu_min =
      (l.map RawSample.cpu).foldl min e.cpu_min := by
  induction l generalizing e with
  | nil => rfl
  | cons s l ih =>
    have h2 : (e.update s).sample_count ≠ 0 := by simp [LogEntry.update]
    rw [List.foldl_cons, ih _ h2, List.map_cons, List.foldl_cons]
    congr 1
    simp [LogEntry.update, h]

theorem foldl_update_max (l : List RawSample) (e : LogEntry)
    (h : e.sample_count ≠ 0) :
    (l.foldl LogEntry.update e).cpu_max =
      (l.map RawSample.cpu).foldl max e.cpu_max := by
  induction l generalizing e with
  | nil => rfl
  | cons s l ih =>
    have h2 : (e.update s).sample_count ≠ 0 := by simp [LogEntry.update]
    rw [List.foldl_cons, ih _ h2, List.map_cons, List.foldl_cons]
    congr 1
    simp [LogEntry.update, h]

theorem foldl_update_net_first (l : List RawSample) (e : LogEntry)
    (h : e.sample_count ≠ 0) :
    (l.foldl LogEntry.update e).net_rx_first = e.net_rx_first ∧
    (l.foldl LogEntry.update e).net_tx_first = e.net_tx_first := by
  induction l generalizing e with
  | nil => exact ⟨rfl, rfl⟩
  | cons s l ih =>
    have h2 : (e.update s).sample_count ≠ 0 := by simp [LogEntry.update]
    rw [List.foldl_cons]
    obtain ⟨h1, h1'⟩ := ih _ h2
    refine ⟨?_, ?_⟩
    · rw [h1]
      simp [LogEntry.update, h]
    · rw [h1']
      simp [LogEntry.update, h]

theorem foldl_update_net_last (l : List RawSample) (e : LogEntry) :
    (l.foldl LogEntry.update e).net_rx_last =
      (l.map RawSample.rx).getLastD e.net_rx_last ∧
    (l.foldl LogEntry.update e).net_tx_last =
      (l.map RawSample.tx).getLastD e.net_tx_last := by
  induction l generalizing e with
  | nil => exact ⟨rfl, rfl⟩
  | cons s l ih =>
    rw [List.foldl_cons]
    obtain ⟨h1, h2⟩ := ih (e.update s)
    refine ⟨?_, ?_⟩
    · rw [h1, List.map_cons, List.getLastD_cons]
      rfl
    · rw [h2, List.map_cons, List.getLastD_cons]
      rfl

theorem foldl_min_mem {α : Type} [LinearOrder α] (l : List α) (a : α) :
    l.foldl min a = a ∨ l.foldl min a ∈ l := by
  induction l generalizing a with
  | nil => left; rfl
  | cons x xs ih =>
    rw [List.foldl_cons]
    rcases ih (min a x) with h | h
    · rw [h]
      rcases min_choice a x with h2 | h2
      · left; exact h2
      · right; rw [h2]; exact List.mem_cons_self x xs
    · right; exact List.mem_cons_of_mem x h

theorem foldl_min_le {α : Type} [LinearOrder α] (l : List α) (a : α) :
    l.foldl min a ≤ a ∧ ∀ x ∈ l, l.foldl min a ≤ x := by
  induction l generalizing a with
  | nil => exact ⟨le_refl a, by simp⟩
  | cons x xs ih =>
    rw [List.foldl_cons]
    obtain ⟨h1, h2⟩ := ih (min a x)
    refine ⟨le_trans h1 (min_le_left a x), ?_⟩
    intro z hz
    rcases List.mem_cons.mp hz with rfl | hz
    · exact le_trans h1 (min_le_right a z)
    · exact h2 z hz

theorem foldl_max_mem {α : Type} [LinearOrder α] (l : List α) (a : α) :
    l.foldl max a = a ∨ l.foldl max a ∈ l := by
  induction l generalizing a with
  | nil => left; rfl
  | cons x xs ih =>
    rw [List.foldl_cons]
    rcases ih (max a x) with h | h
    · rw [h]
      rcases max_choice a x with h2 | h2
      · left; exact h2
      · right; rw [h2]; exact List.mem_cons_self x xs
    · right; exact List.mem_cons_of_mem x h

theorem foldl_max_le {α : Type} [LinearOrder α] (l : List α) (a : α) :
    a ≤ l.foldl max a ∧ ∀ x ∈ l, x ≤ l.foldl max a := by
  induction l generalizing a with
  | nil => exact ⟨le_refl a, by simp⟩
  | cons x xs ih =>
    rw [List.foldl_cons]
    obtain ⟨h1, h2⟩ := ih (max a x)
    refine ⟨le_trans (le_max_left a x) h1, ?_⟩
    intro z hz
    rcases List.mem_cons.mp hz with rfl | hz
    · exact le_trans (le_max_right a z) h1
    · exact h2 z hz

theorem getLastD_map_eq_getLast {α β : Type} (f : α → β) (a : α)
    (l : List α) :
    (l.map f).getLastD (f a) =
      f ((a :: l).getLast (List.cons_ne_nil a l)) := by
  induction l generalizing a with
  | nil => rfl
  | cons b m ih =>
    rw [List.map_cons, List.getLastD_cons, ih b]
    rfl

theorem runInterval_char (s : RawSample) (l : List RawSample) :
    ∃ r, (runInterval (s :: l)).finalize = some r ∧
      r.sample_count = (s :: l).length ∧
      r.cpu_avg =
        ((s :: l).map RawSample.cpu).sum / (((s :: l).length : ℚ)) ∧
      r.cpu_min ∈ (s :: l).map RawSample.cpu ∧
      (∀ x ∈ (s :: l).map RawSample.cpu, r.cpu_min ≤ x) ∧
      r.cpu_max ∈ (s :: l).map RawSample.cpu ∧
      (∀ x ∈ (s :: l).map RawSample.cpu, x ≤ r.cpu_max) ∧
      r.net_rx_delta =
        max 0 ((((s :: l).getLast (List.cons_ne_nil s l)).rx : ℤ) -
          (s.rx : ℤ)) ∧
      r.net_tx_delta =
        max 0 ((((s :: l).getLast (List.cons_ne_nil s l)).tx : ℤ) -
          (s.tx : ℤ)) := by
  have hrun : runInterval (s :: l) =
      l.foldl LogEntry.update (LogEntry.new.update s) := by
    simp [runInterval]
  have hone : (LogEntry.new.update s).sample_count ≠ 0 := by
    simp [LogEntry.update, LogEntry.new]
  have hcount :
      (l.foldl LogEntry.update (LogEntry.new.update s)).sample_count =
        l.length + 1 := by
    rw [foldl_update_count]
    show 0 + 1 + l.length = l.length + 1
    omega
  have hsum : (l.foldl LogEntry.update (LogEntry.new.update s)).cpu_sum =
      s.cpu + (l.map RawSample.cpu).sum := by
    rw [foldl_update_sum]
    show (0 : ℚ) + s.cpu + (l.map RawSample.cpu).sum = _
    ring
  have hmin : (l.foldl LogEntry.update (LogEntry.new.update s)).cpu_min =
      (l.map RawSample.cpu).foldl min s.cpu := by
    rw [foldl_update_min _ _ hone]
    rfl
  have hmax : (l.foldl LogEntry.update (LogEntry.new.update s)).cpu_max =
      (l.map RawSample.cpu).foldl max s.cpu := by
    rw [foldl_update_max _ _ hone]
    rfl
  have hrxf : (l.foldl LogEntry.update (LogEntry.new.update s)).net_rx_first =
      s.rx :=
    (foldl_update_net_first l (LogEntry.new.update s) hone).1
  have htxf : (l.foldl LogEntry.update (LogEntry.new.update s)).net_tx_first =
      s.tx :=
    (foldl_update_net_first l (LogEntry.new.update s) hone).2
  have hrxl : (l.foldl LogEntry.update (LogEntry.new.update s)).net_rx_last =
      ((s :: l).getLast (List.cons_ne_nil s l)).rx := by
    rw [(foldl_update_net_last l (LogEntry.new.update s)).1]
    exact getLastD_map_eq_getLast RawSample.rx s l
  have htxl : (l.foldl LogEntry.update (LogEntry.new.update s)).net_tx_last =
      ((s :: l).getLast (List.cons_ne_nil s l)).tx := by
    rw [(foldl_update_net_last l (LogEntry.new.update s)).2]
    exact getLastD_map_eq_getLast RawSample.tx s l
  have hfin : (runInterval (s :: l)).finalize = some
      { cpu_avg :=
          (s.cpu + (l.map RawSample.cpu).sum) / ((l.length + 1 : ℕ) : ℚ)
        cpu_min := (l.map RawSample.cpu).foldl min s.cpu
        cpu_max := (l.map RawSample.cpu).foldl max s.cpu
        net_rx_delta := max 0
          ((((s :: l).getLast (List.cons_ne_nil s l)).rx : ℤ) - (s.rx : ℤ))
        net_tx_delta := max 0
          ((((s :: l).getLast (List.cons_ne_nil s l)).tx : ℤ) - (s.tx : ℤ))
        sample_count := l.length + 1 } := by
    rw [hrun]
    unfold LogEntry.finalize
    rw [if_neg (by omega)]
    rw [hcount, hsum, hmin, hmax, hrxf, htxf, hrxl, htxl]
  refine ⟨_, hfin, ?_, ?_, ?_, ?_, ?_, ?_, rfl, rfl⟩
  · simp
  · simp only [List.map_cons, List.sum_cons, List.length_cons]
  · rw [List.map_cons]
    rcases foldl_min_mem (l.map RawSample.cpu) s.cpu with h | h
    · rw [h]
      exact List.mem_cons_self _ _
    · exact List.mem_cons_of_mem _ h
  · intro x hx
    rw [List.map_cons] at hx
    obtain ⟨h1, h2⟩ := foldl_min_le (l.map RawSample.cpu) s.cpu
    rcases List.mem_cons.mp hx with rfl | hx
    · exact h1
    · exact h2 x hx
  · rw [List.map_cons]
    rcases foldl_max_mem (l.map RawSample.cpu) s.cpu with h | h
    · rw [h]
      exact List.mem_cons_self _ _
    · exact List.mem_cons_of_mem _ h
  · intro x hx
    rw [List.map_cons] at hx
    obtain ⟨h1, h2⟩ := foldl_max_le (l.map RawSample.cpu) s.cpu
    rcases List.mem_cons.mp hx with rfl | hx
    · exact h1
    · exact h2 x hx

/-- C3: folding any non-empty interval of raw samples via `update` and
closing with `finalize` yields `cpu_avg` equal to the arithmetic mean of
the CPU samples, and `cpu_min`/`cpu_max` equal to the sequence's minimum
and maximum (a member that bounds all samples from below resp. above);
every permutation of the same samples yields the same `cpu_avg`,
`cpu_min` and `cpu_max`. -/
theorem interval_cpu_aggregates (samples : List RawSample)
    (h : samples ≠ []) :
    ∃ r, (runInterval samples).finalize = some r ∧
      r.sample_count = samples.length ∧
      r.cpu_avg = (samples.map RawSample.cpu).sum / ((samples.length : ℚ)) ∧
      r.cpu_min ∈ samples.map RawSample.cpu ∧
      (∀ x ∈ samples.map RawSample.cpu, r.cpu_min ≤ x) ∧
      r.cpu_max ∈ samples.map RawSample.cpu ∧
      (∀ x ∈ samples.map RawSample.cpu, x ≤ r.cpu_max) ∧
      ∀ samples2 : List RawSample, samples.Perm samples2 →
        ∃ r2, (runInterval samples2).finalize = some r2 ∧
          r2.sample_count = r.sample_count ∧ r2.cpu_avg = r.cpu_avg ∧
          r2.cpu_min = r.cpu_min ∧ r2.cpu_max = r.cpu_max := by
  cases samples with
  | nil => exact absurd rfl h
  | cons s l =>
    obtain ⟨r, hfin, hcount, havg, hminmem, hminle, hmaxmem, hmaxle, _, _⟩ :=
      runInterval_char s l
    refine ⟨r, hfin, hcount, havg, hminmem, hminle, hmaxmem, hmaxle, ?_⟩
    intro samples2 hp
    have hne2 : samples2 ≠ [] := by
      intro he
      rw [he] at hp
      exact List.cons_ne_nil s l hp.eq_nil
    cases samples2 with
    | nil => exact absurd rfl hne2
    | cons s2 l2 =>
      obtain ⟨r2, hfin2, hcount2, havg2, hminmem2, hminle2, hmaxmem2,
        hmaxle2, _, _⟩ := runInterval_char s2 l2
      have hmp : ((s :: l).map RawSample.cpu).Perm
          ((s2 :: l2).map RawSample.cpu) := hp.map RawSample.cpu
      refine ⟨r2, hfin2, ?_, ?_, ?_, ?_⟩
      · rw [hcount2, hcount]
        exact hp.length_eq.symm
      · rw [havg2, havg, hmp.sum_eq, hp.length_eq]
      · exact le_antisymm (hminle2 _ (hmp.mem_iff.mp hminmem))
          (hminle _ (hmp.mem_iff.mpr hminmem2))
      · exact le_antisymm (hmaxle _ (hmp.mem_iff.mpr hmaxmem2))
          (hmaxle2 _ (hmp.mem_iff.mp hmaxmem))

/-- Witness for C3: the two samples with CPU readings 1 and 3. -/
theorem interval_cpu_aggregates_witness :
    ∃ r, (runInterval [⟨1, 0, 0⟩, ⟨3, 2, 4⟩]).finalize = some r ∧
      r.sample_count = ([⟨1, 0, 0⟩, ⟨3, 2, 4⟩] : List RawSample).length ∧
      r.cpu_avg =
        (([⟨1, 0, 0⟩, ⟨3, 2, 4⟩] : List RawSample).map RawSample.cpu).sum /
          ((([⟨1, 0, 0⟩, ⟨3, 2, 4⟩] : List RawSample).length : ℚ)) ∧
      r.cpu_min ∈ ([⟨1, 0, 0⟩, ⟨3, 2, 4⟩] : List RawSample).map
        RawSample.cpu ∧
      (∀ x ∈ ([⟨1, 0, 0⟩, ⟨3, 2, 4⟩] : List RawSample).map RawSample.cpu,
        r.cpu_min ≤ x) ∧
      r.cpu_max ∈ ([⟨1, 0, 0⟩, ⟨3, 2, 4⟩] : List RawSample).map
        RawSample.cpu ∧
      (∀ x ∈ ([⟨1, 0, 0⟩, ⟨3, 2, 4⟩] : List RawSample).map RawSample.cpu,
        x ≤ r.cpu_max) ∧
      ∀ samples2 : List RawSample,
        ([⟨1, 0, 0⟩, ⟨3, 2, 4⟩] : List RawSample).Perm samples2 →
        ∃ r2, (runInterval samples2).finalize = some r2 ∧
          r2.sample_count = r.sample_count ∧ r2.cpu_avg = r.cpu_avg ∧
          r2.cpu_min = r.cpu_min ∧ r2.cpu_max = r.cpu_max :=
  interval_cpu_aggregates [⟨1, 0, 0⟩, ⟨3, 2, 4⟩] (List.cons_ne_nil _ _)

/-- C4: for every non-empty interval, the finalized network deltas are
never negative; they equal last counter minus first counter when the last
raw sample's cumulative counter is at least the first's, and are clamped
to 0 whenever the last counter is smaller than the first (counter
reset/wrap). -/
theorem interval_net_deltas (samples : List RawSample) (h : samples ≠ []) :
    ∃ r, (runInterval samples).finalize = some r ∧
      0 ≤ r.net_rx_delta ∧ 0 ≤ r.net_tx_delta ∧
      ((samples.head h).rx ≤ (samples.getLast h).rx →
        r.net_rx_delta =
          ((samples.getLast h).rx : ℤ) - ((samples.head h).rx : ℤ)) ∧
      ((samples.getLast h).rx < (samples.head h).rx →
        r.net_rx_delta = 0) ∧
      ((samples.head h).tx ≤ (samples.getLast h).tx →
        r.net_tx_delta =
          ((samples.getLast h).tx : ℤ) - ((samples.head h).tx : ℤ)) ∧
      ((samples.getLast h).tx < (samples.head h).tx →
        r.net_tx_delta = 0) := by
  cases samples with
  | nil => exact absurd rfl h
  | cons s l =>
    obtain ⟨r2, hfin, _, _, _, _, _, _, hrx, htx⟩ := runInterval_char s l
    simp only [List.head_cons]
    refine ⟨r2, hfin, ?_, ?_, ?_, ?_, ?_, ?_⟩
    · rw [hrx]
      exact le_max_left _ _
    · rw [htx]
      exact le_max_left _ _
    · intro hle
      rw [hrx]
      exact max_eq_right (sub_nonneg.mpr (by exact_mod_cast hle))
    · intro hlt
      rw [hrx]
      exact max_eq_left (sub_nonpos.mpr (le_of_lt (by exact_mod_cast hlt)))
    · intro hle
      rw [htx]
      exact max_eq_right (sub_nonneg.mpr (by exact_mod_cast hle))
    · intro hlt
      rw [htx]
      exact max_eq_left (sub_nonpos.mpr (le_of_lt (by exact_mod_cast hlt)))

/-- Witness for C4: two samples with receive counters 10 then 3 (simulated
reset: the receive delta is clamped to 0) and transmit counters 5 then 9
(the transmit delta is 9 - 5). -/
theorem interval_net_deltas_witness :
    ∃ r, (runInterval [⟨0, 10, 5⟩, ⟨0, 3, 9⟩]).finalize = some r ∧
      0 ≤ r.net_rx_delta ∧ 0 ≤ r.net_tx_delta ∧
      ((10 : ℕ) ≤ 3 →
        r.net_rx_delta = ((3 : ℕ) : ℤ) - ((10 : ℕ) : ℤ)) ∧
      ((3 : ℕ) < 10 → r.net_rx_delta = 0) ∧
      ((5 : ℕ) ≤ 9 →
        r.net_tx_delta = ((9 : ℕ) : ℤ) - ((5 : ℕ) : ℤ)) ∧
      ((9 : ℕ) < 5 → r.net_tx_delta = 0) :=
  interval_net_deltas [⟨0, 10, 5⟩, ⟨0, 3, 9⟩] (List.cons_ne_nil _ _)

/-- C5: an interval of 0 is rejected by the configuration validation
(modelled from the spec) before the loop starts; every accepted interval
is positive and an interval's worth of `update` calls then gives
`sample_count` equal to the interval, so `finalize` is reached only with a
positive count and emits a record; and `finalize` on a record with
`sample_count = 0` performs no division and emits nothing (`none`). -/
theorem zero_interval_rejected_and_empty_finalize :
    validateInterval 0 = none ∧
    (∀ n v, validateInterval n = some v → 0 < v ∧
      ∀ samples : List RawSample, samples.length = v →
        (runInterval samples).sample_count = v ∧
        ((runInterval samples).finalize).isSome = true) ∧
    (∀ e : LogEntry, e.sample_count = 0 → e.finalize = none) := by
  refine ⟨rfl, ?_, ?_⟩
  · intro n v hv
    unfold validateInterval at hv
    split at hv
    · exact absurd hv (by simp)
    · obtain rfl : n = v := Option.some.inj hv
      rename_i hn
      refine ⟨by omega, ?_⟩
      intro samples hlen
      have hcount : (runInterval samples).sample_count = samples.length := by
        unfold runInterval
        rw [foldl_update_count]
        show 0 + samples.length = samples.length
        omega
      refine ⟨hcount.trans hlen, ?_⟩
      unfold LogEntry.finalize
      rw [if_neg (by omega)]
      rfl
  · intro e he
    unfold LogEntry.finalize
    rw [if_pos he]

/-- Witness for C5: interval 1 is accepted, one sample gives count 1 and an
emitted record, and the empty record finalizes to nothing. -/
theorem zero_interval_rejected_and_empty_finalize_witness :
    validateInterval 0 = none ∧
    (runInterval [⟨1, 2, 3⟩]).sample_count = 1 ∧
    ((runInterval [⟨1, 2, 3⟩]).finalize).isSome = true ∧
    LogEntry.new.finalize = none :=
  ⟨zero_interval_rejected_and_empty_finalize.1,
   ((zero_interval_rejected_and_empty_finalize.2.1 1 1 rfl).2
     [⟨1, 2, 3⟩] rfl).1,
   ((zero_interval_rejected_and_empty_finalize.2.1 1 1 rfl).2
     [⟨1, 2, 3⟩] rfl).2,
   zero_interval_rejected_and_empty_finalize.2.2 LogEntry.new rfl⟩
